import Mathlib

/-!
Verification of the costs-report module (src/costs_report/costs_report.py).

The Python module is shallowly embedded here:

* monetary amounts (Python floats holding decimal currency values) are
  modelled as rationals;
* Python dictionaries keyed by month are modelled as association lists in
  insertion order (keys are unique);
* fallible Python code (unpacking an empty list raises ValueError, dividing
  by a zero length raises ZeroDivisionError, `re.sub` applied to a non-string
  raises TypeError) is modelled with `Except PyError`;
* the recursive comma-insertion loop of `pprint_currency` is modelled with a
  fuel parameter; the fuel bound is proved adequate (the loop reaches a fixed
  point of the single-step transform).
-/

attribute [local semireducible] Rat.mul Rat.add Rat.sub Rat.inv Rat.ofScientific

deriving instance DecidableEq for Except

namespace CostsReport

/-- Python exceptions that the modelled code can raise. -/
inductive PyError
  | typeError
  | valueError
  | zeroDivisionError
deriving DecidableEq

/-- The runtime type of the argument handed to `pprint_currency`:
a Python float (modelled as an exact rational), a Python int, or a string. -/
inductive CurrencyInput
  | float (q : ℚ)
  | int (n : ℤ)
  | str (s : String)

/-! ### The regex step of `pprint_currency`

`re.sub(r"^(-?\d+)(\d{3})", r"\g<1>,\g<2>", orig)` matches, at the start of
the string, an optional minus sign followed by the maximal run of digits,
provided that run has length at least 4; backtracking makes the first group
keep all but the last three digits of the run and the second group exactly
the last three, so the substitution inserts one comma before the last three
digits of the leading run.  Otherwise the string is unchanged. -/

/-- Split the optional leading minus sign off a string (the `-?` part of the
regex). -/
def splitSign (cs : List Char) : List Char × List Char :=
  match cs with
  | [] => ([], [])
  | c :: rest => if c = '-' then ([c], rest) else ([], c :: rest)

/-- Length of the leading digit run, after the optional minus sign. -/
def leadRun (cs : List Char) : ℕ :=
  ((splitSign cs).2.takeWhile Char.isDigit).length

/-- One application of the `re.sub` from `pprint_currency`: insert a comma
before the last three digits of the leading digit run when that run has at
least four digits, otherwise return the string unchanged. -/
def commaStepL (cs : List Char) : List Char :=
  let sp := splitSign cs
  let ds := sp.2.takeWhile Char.isDigit
  let post := sp.2.dropWhile Char.isDigit
  if 4 ≤ ds.length then
    sp.1 ++ (ds.take (ds.length - 3) ++ ',' :: (ds.drop (ds.length - 3) ++ post))
  else cs

/-- The `orig == new` fixed-point recursion of `pprint_currency`, with fuel.
`pprintChars` below supplies fuel that is proved sufficient
(`commaStepL_pprintChars`). -/
def fixCommaFuel : ℕ → List Char → List Char
  | 0, cs => cs
  | n + 1, cs =>
    let new := commaStepL cs
    if new = cs then cs else fixCommaFuel n new

/-- The comma-insertion loop of `pprint_currency` run to convergence. -/
def pprintChars (cs : List Char) : List Char :=
  fixCommaFuel (leadRun cs) cs

/-- String-level wrapper of `pprintChars`. -/
def pprintStr (s : String) : String :=
  String.mk (pprintChars s.data)

/-- Round a rational to the nearest integer, ties to even: the rounding used
by Python `"%.2f"` formatting (applied to the exact value of the float). -/
def roundHalfEven (q : ℚ) : ℤ :=
  let f := ⌊q⌋
  let r := q - f
  if r < 1 / 2 then f
  else if 1 / 2 < r then f + 1
  else if f % 2 = 0 then f else f + 1

/-- Left-pad the fractional part to two digits. -/
def pad2 (n : ℕ) : String :=
  if n < 10 then "0" ++ toString n else toString n

/-- Python `"%.2f" % v`: fixed two-decimal rendering of a number. -/
def formatFixed2 (q : ℚ) : String :=
  let n := roundHalfEven (q * 100)
  (if q < 0 then "-" else "") ++ toString (n.natAbs / 100) ++ "." ++ pad2 (n.natAbs % 100)

/-- `pprint_currency` on a float argument (the only case exercised by
`_render_row`): two-decimal formatting followed by the comma loop. -/
def pprintF (q : ℚ) : String :=
  pprintStr (formatFixed2 q)

/-- `pprint_currency(v)` from the source.  A float is first rendered with
`"%.2f"`; a string goes straight to the substitution loop; any other value
(e.g. a Python int) makes `re.sub` raise TypeError. -/
def pprint_currency : CurrencyInput → Except PyError String
  | .float q => .ok (pprintF q)
  | .str s => .ok (pprintStr s)
  | .int _ => .error .typeError

/-! ### Data model -/

/-- A calendar (year, month) pair, as produced by
`(start.year, start.month)` in `get_last_four_months_of_bills`. -/
abbrev MonthKey : Type := ℤ × ℤ

/-- A per-account mapping MonthKey → amount.  Python dict, modelled as an
association list in insertion order with unique keys. -/
abbrev AccountBills : Type := List (MonthKey × ℚ)

/-- The account-label → AccountBills mapping consumed by
`create_billing_table`. -/
abbrev BillingData : Type := List (String × AccountBills)

/-! ### Sorting (Python `sorted`)

Python `sorted` is a stable comparison sort; it is modelled by a stable
insertion sort parameterised by a strict "comes before" test. -/

/-- Insert `x` into `l` after every element `y` with `lt y x` (so that, on
ties, the element inserted earlier in `sortBy`'s right fold — the one earlier
in the input — stays first, as Python's stable sort does). -/
def insertIn {α : Type} (lt : α → α → Bool) (x : α) : List α → List α
  | [] => [x]
  | y :: ys => if lt y x then y :: insertIn lt x ys else x :: y :: ys

/-- Stable sort by the strict comparison `lt`. -/
def sortBy {α : Type} (lt : α → α → Bool) (l : List α) : List α :=
  l.foldr (insertIn lt) []

/-- Lexicographic comparison of `((year, month), amount)` pairs: the order
Python uses for `sorted(per_month_bills.items())`. -/
def pairLt (a b : MonthKey × ℚ) : Bool :=
  decide (a.1.1 < b.1.1 ∨ (a.1.1 = b.1.1 ∧ (a.1.2 < b.1.2 ∨ (a.1.2 = b.1.2 ∧ a.2 < b.2))))

/-- `average(values)` from the source: `sum(values) / len(values)`, raising
ZeroDivisionError (here: `none`) on an empty list. -/
def average (values : List ℚ) : Option ℚ :=
  if values.length = 0 then none else some (values.sum / (values.length : ℚ))

/-! ### `_render_row` -/

/-- Python `int()` applied to a number: truncation toward zero. -/
def truncInt (q : ℚ) : ℤ :=
  if q < 0 then ⌈q⌉ else ⌊q⌋

/-- Python `f"{n:2d}"`: decimal rendering of an integer, left-padded with
spaces to width 2. -/
def fmt2d (n : ℤ) : String :=
  if (toString n).length < 2 then " " ++ toString n else toString n

/-- The bills sorted ascending, `sorted(per_month_bills.items())`. -/
def sortedBills (bills : AccountBills) : AccountBills :=
  sortBy pairLt bills

/-- The amounts of the previous months: every entry of the sorted bills but
the chronologically last one. -/
def prevValues (bills : AccountBills) : List ℚ :=
  (sortedBills bills).dropLast.map Prod.snd

/-- The previous-month amounts with the exactly-zero entries dropped:
`[total for _, total in prev_months if total != 0]`. -/
def nzPrevValues (bills : AccountBills) : List ℚ :=
  (prevValues bills).filter (fun t => decide (t ≠ 0))

/-- The arithmetic mean of the non-zero previous-month amounts (the value
`average` returns when it does not raise). -/
def specPrevAvg (bills : AccountBills) : ℚ :=
  (nzPrevValues bills).sum / ((nzPrevValues bills).length : ℚ)

/-- The amount of the chronologically last entry after sorting ascending by
MonthKey (the default is irrelevant: it is only read when the mapping is
non-empty). -/
def specThisMonth (bills : AccountBills) : ℚ :=
  ((sortedBills bills).getLastD ((0, 0), 0)).2

/-- `_render_row(label, per_month_bills)`.  Unpacking
`*prev_months, this_month = sorted(...)` raises ValueError on an empty dict;
`average` raises ZeroDivisionError when every previous amount is zero. -/
def renderRow (label : String) (bills : AccountBills) : Except PyError (List String) :=
  (sortedBills bills).getLast?.elim (.error .valueError) fun thisMonth =>
    (average (nzPrevValues bills)).elim (.error .zeroDivisionError) fun prevAvg =>
      let thisTotal := thisMonth.2
      let gl : String × String :=
        if prevAvg * 0.95 > thisTotal then
          ("↓ " ++ fmt2d (truncInt ((1 - thisTotal / prevAvg) * 100)) ++ "%", "")
        else if prevAvg * 1.05 ≤ thisTotal then
          ("", "↟↟ " ++ fmt2d (truncInt ((thisTotal / prevAvg - 1) * 100)) ++ "%")
        else ("", "")
      .ok [label, pprintF prevAvg, pprintF thisTotal, gl.1, gl.2]

/-! ### `create_billing_table` -/

/-- Numeric value of a decimal digit character. -/
def digitVal (c : Char) : ℕ :=
  c.toNat - 48

/-- Natural number denoted by a list of decimal digit characters. -/
def digitsToNat (cs : List Char) : ℕ :=
  cs.foldl (fun a c => 10 * a + digitVal c) 0

/-- Python `float(s)` on strings of the shape produced by `pprint_currency`
with the commas removed: optional minus sign, integer digits, a dot, and
fractional digits, read back as an exact rational. -/
def parseDecimal (cs : List Char) : ℚ :=
  let sp := splitSign cs
  let ip := sp.2.takeWhile Char.isDigit
  let rest := sp.2.dropWhile Char.isDigit
  let fp := (rest.drop 1).takeWhile Char.isDigit
  let mag : ℚ := (digitsToNat ip : ℚ) + (digitsToNat fp : ℚ) / (10 : ℚ) ^ fp.length
  if sp.1 = [] then mag else -mag

/-- The sort key of `create_billing_table`:
`float(r[2].replace(",", ""))` — the this-month cell with its commas removed,
parsed back to a number. -/
def sortKey (r : List String) : ℚ :=
  parseDecimal ((r.getD 2 "").data.filter (fun c => decide (c ≠ ',')))

/-- Strict "comes before" test for the descending, stable row sort
(`sorted(rows, key=..., reverse=True)`). -/
def rowLt (a b : List String) : Bool :=
  decide (sortKey b < sortKey a)

/-- The static dashed separator row appended before the TOTAL row. -/
def sepRow : List String :=
  ["-------------", "-------------------", "----------------", "------", "------"]

/-- `total_bills[month] += v` on a `defaultdict(int)`: add into the existing
entry, or append a fresh entry (Python dicts keep insertion order). -/
def bump : List (MonthKey × ℚ) → MonthKey → ℚ → List (MonthKey × ℚ)
  | [], k, v => [(k, v)]
  | p :: rest, k, v => if p.1 = k then (k, p.2 + v) :: rest else p :: bump rest k v

/-- The average the zero-backfill substitutes:
`average([v for v in per_month_bills.values() if v > 0])`. -/
def posAvgOf (bills : AccountBills) : Option ℚ :=
  average ((bills.map Prod.snd).filter (fun v => decide (0 < v)))

/-- The inner loop of the total computation: fold one account's months into
the accumulated totals, substituting the account's positive-month average
for any exactly-zero amount (ZeroDivisionError if it has no positive month). -/
def addMonths (bills : AccountBills) :
    List (MonthKey × ℚ) → List (MonthKey × ℚ) → Except PyError (List (MonthKey × ℚ))
  | acc, [] => .ok acc
  | acc, p :: rest =>
    if p.2 = 0 then
      (posAvgOf bills).elim (.error .zeroDivisionError)
        (fun av => addMonths bills (bump acc p.1 av) rest)
    else addMonths bills (bump acc p.1 p.2) rest

/-- The outer loop of the total computation, over the accounts. -/
def totalsOf : List (MonthKey × ℚ) → BillingData → Except PyError (List (MonthKey × ℚ))
  | acc, [] => .ok acc
  | acc, a :: rest => (addMonths a.2 acc a.2).bind fun acc2 => totalsOf acc2 rest

/-- The synthetic `total_bills` mapping built by `create_billing_table`. -/
def totalBillsList (data : BillingData) : Except PyError (List (MonthKey × ℚ)) :=
  totalsOf [] data

/-- The rows of the table `create_billing_table` builds, in final order:
the rendered account rows sorted descending by the re-parsed this-month
cell, then the separator row, then the TOTAL row.  (The `tabulate` call that
turns these rows into one fixed-width string is an external library.) -/
def billingRows (data : BillingData) : Except PyError (List (List String)) :=
  (data.mapM (fun a => renderRow a.1 a.2)).bind fun rows =>
    let sortedRows := sortBy rowLt rows
    (totalBillsList data).bind fun totals =>
      (renderRow "TOTAL" totals).map fun totalRow =>
        sortedRows ++ [sepRow, totalRow]

/-! ### `get_last_four_months_of_bills`: the query-window computation -/

/-- The `four_months_ago` date computed by `get_last_four_months_of_bills`
from the current (year, month): keep the year and subtract 4 when the month
is later than April, otherwise move to the previous year and month
`12 - month`. -/
def fourMonthsAgo (y m : ℤ) : ℤ × ℤ :=
  if 4 < m then (y, m - 4) else (y - 1, 12 - m)

/-- Modelled from the spec: the first day of the month exactly four calendar
months before the current month, the window start the claim asserts
(`get_last_four_months_of_bills` is documented to cover the last four
months).  Four months before month `m` is `m - 4`, wrapping to `m + 8` of
the previous year for January through April. -/
def specFourMonthsBefore (y m : ℤ) : ℤ × ℤ :=
  if 4 < m then (y, m - 4) else (y - 1, m + 8)

/-- Linear month index, for measuring how many calendar months a
(year, month) pair lies before another. -/
def monthIndex (ym : ℤ × ℤ) : ℤ :=
  12 * ym.1 + ym.2

/-! ### Claim-side (spec-worded) companions for the total row -/

/-- The value the `total_bills` dict holds at key `m`: the sum of the
amounts stored under `m` (with unique keys, the single entry for `m`, and 0
for an absent month). -/
def lookupSum : List (MonthKey × ℚ) → MonthKey → ℚ
  | [], _ => 0
  | p :: rest, m => (if p.1 = m then p.2 else 0) + lookupSum rest m

/-- Modelled on the claim's words: the average of one account's non-zero
monthly amounts, across all its months. -/
def specNZAvg (bills : AccountBills) : ℚ :=
  ((bills.map Prod.snd).filter (fun v => decide (v ≠ 0))).sum /
    (((bills.map Prod.snd).filter (fun v => decide (v ≠ 0))).length : ℚ)

/-- Claim-side contribution of the entries `l` of one account (whose whole
mapping is `bills`) to the total for month `m`: its amount for the month,
with an exactly-zero amount replaced by the account's non-zero average. -/
def specContribList (bills : AccountBills) : List (MonthKey × ℚ) → MonthKey → ℚ
  | [], _ => 0
  | p :: rest, m =>
    (if p.1 = m then (if p.2 = 0 then specNZAvg bills else p.2) else 0) +
      specContribList bills rest m

/-- Claim-side total for month `m`: the sum over all accounts of that
account's (zero-substituted) amount for the month. -/
def specTotalAt : BillingData → MonthKey → ℚ
  | [], _ => 0
  | a :: rest, m => specContribList a.2 a.2 m + specTotalAt rest m

/-! ### Concrete fixtures used by the claims -/

/-- Account A of the total-row substitution test: `{Jan:10, Feb:0, Mar:10}`. -/
def exBillsA : AccountBills := [((2024, 1), 10), ((2024, 2), 0), ((2024, 3), 10)]

/-- Account B of the total-row substitution test: `{Jan:5, Feb:5, Mar:5}`. -/
def exBillsB : AccountBills := [((2024, 1), 5), ((2024, 2), 5), ((2024, 3), 5)]

/-- The two-account BillingData of the total-row substitution test. -/
def exDataAB : BillingData := [("A", exBillsA), ("B", exBillsB)]

/-- An account whose this-month cell renders as "1,200.00". -/
def rowBillsA : AccountBills := [((2024, 1), 1000), ((2024, 2), 1200)]

/-- An account whose this-month cell renders as "50.00". -/
def rowBillsB : AccountBills := [((2024, 1), 50), ((2024, 2), 50)]

/-- An account whose this-month cell renders as "999.99". -/
def rowBillsC : AccountBills := [((2024, 1), 999.99), ((2024, 2), 999.99)]

/-- The six input orders of the three sort-test accounts. -/
def sortPerms : List BillingData :=
  [[("A", rowBillsA), ("B", rowBillsB), ("C", rowBillsC)],
   [("A", rowBillsA), ("C", rowBillsC), ("B", rowBillsB)],
   [("B", rowBillsB), ("A", rowBillsA), ("C", rowBillsC)],
   [("B", rowBillsB), ("C", rowBillsC), ("A", rowBillsA)],
   [("C", rowBillsC), ("A", rowBillsA), ("B", rowBillsB)],
   [("C", rowBillsC), ("B", rowBillsB), ("A", rowBillsA)]]

/-- The one table the assembler must produce from every input order of the
three sort-test accounts: rows descending by this-month value, then the
separator, then the TOTAL row. -/
def sortedTable : List (List String) :=
  [["A", "1,000.00", "1,200.00", "", "↟↟ 20%"],
   ["C", "999.99", "999.99", "", ""],
   ["B", "50.00", "50.00", "", ""],
   sepRow,
   ["TOTAL", "2,049.99", "2,249.99", "", "↟↟  9%"]]

/-! ### Lemmas about the stable insertion sort -/

theorem insertIn_perm {α : Type} (lt : α → α → Bool) (x : α) :
    ∀ l : List α, List.Perm (insertIn lt x l) (x :: l)
  | [] => List.Perm.refl _
  | y :: ys => by
    unfold insertIn
    by_cases h : lt y x
    · rw [if_pos h]
      exact (List.Perm.cons y (insertIn_perm lt x ys)).trans (List.Perm.swap x y ys)
    · rw [if_neg h]

theorem sortBy_perm {α : Type} (lt : α → α → Bool) (l : List α) :
    List.Perm (sortBy lt l) l := by
  induction l with
  | nil => exact List.Perm.refl _
  | cons a l ih =>
    exact (insertIn_perm lt a (sortBy lt l)).trans (List.Perm.cons a ih)

theorem sortBy_length {α : Type} (lt : α → α → Bool) (l : List α) :
    (sortBy lt l).length = l.length :=
  (sortBy_perm lt l).length_eq

theorem mem_sortBy {α : Type} {lt : α → α → Bool} {l : List α} {a : α} :
    a ∈ sortBy lt l ↔ a ∈ l :=
  (sortBy_perm lt l).mem_iff

theorem pairwise_insertIn {α : Type} (k : α → ℚ) (x : α) :
    ∀ l : List α, l.Pairwise (fun a b => k b ≤ k a) →
      (insertIn (fun a b => decide (k b < k a)) x l).Pairwise (fun a b => k b ≤ k a)
  | [], _ => by simp [insertIn]
  | y :: ys, h => by
    rw [List.pairwise_cons] at h
    obtain ⟨hy, hys⟩ := h
    unfold insertIn
    by_cases hlt : k x < k y
    · rw [if_pos (by simpa using hlt)]
      rw [List.pairwise_cons]
      refine ⟨fun z hz => ?_, pairwise_insertIn k x ys hys⟩
      rcases List.mem_cons.mp ((insertIn_perm _ x ys).mem_iff.mp hz) with rfl | h
      · exact le_of_lt hlt
      · exact hy z h
    · rw [if_neg (by simpa using hlt)]
      rw [List.pairwise_cons]
      refine ⟨fun z hz => ?_, List.pairwise_cons.mpr ⟨hy, hys⟩⟩
      rcases List.mem_cons.mp hz with rfl | h
      · exact le_of_not_lt hlt
      · exact le_trans (hy z h) (le_of_not_lt hlt)

theorem pairwise_sortBy {α : Type} (k : α → ℚ) (l : List α) :
    (sortBy (fun a b => decide (k b < k a)) l).Pairwise (fun a b => k b ≤ k a) := by
  induction l with
  | nil => simp [sortBy]
  | cons a l ih => exact pairwise_insertIn k a (sortBy _ l) ih

/-! ### List utilities -/

theorem getLast?_eq_getLastD {α : Type} (d : α) :
    ∀ l : List α, l ≠ [] → l.getLast? = some (l.getLastD d)
  | [], h => absurd rfl h
  | [a], _ => by simp
  | a :: b :: t, _ => by
    rw [List.getLast?_cons_cons]
    have h := getLast?_eq_getLastD d (b :: t) (by simp)
    simpa using h

theorem takeWhile_append_stop (p : Char → Bool) (x : Char) (hx : ¬ p x = true) :
    ∀ (A B : List Char), (∀ a ∈ A, p a = true) →
      (A ++ x :: B).takeWhile p = A
  | [], B, _ => by simp [List.takeWhile, hx]
  | a :: A, B, hA => by
    have ha : p a = true := hA a (List.mem_cons_self a A)
    simp only [List.cons_append, List.takeWhile_cons, ha, if_true]
    rw [takeWhile_append_stop p x hx A B (fun b hb => hA b (List.mem_cons_of_mem a hb))]

/-! ### Termination of the comma-insertion loop

One substitution step shortens the leading digit run by exactly three, so
`leadRun` fuel is enough to reach a fixed point. -/

theorem digit_ne_dash {c : Char} (h : c.isDigit = true) : ¬ c = '-' := by
  intro hc
  rw [hc] at h
  exact absurd h (by decide)

theorem splitSign_fst (cs : List Char) :
    (splitSign cs).1 = [] ∨ (splitSign cs).1 = ['-'] := by
  match cs with
  | [] => exact Or.inl rfl
  | c :: rest =>
    simp only [splitSign]
    by_cases h : c = '-'
    · rw [if_pos h]
      exact Or.inr (by rw [h])
    · rw [if_neg h]
      exact Or.inl rfl

theorem comma_not_digit : (',' : Char).isDigit = false := by decide

theorem leadRun_sign_digits_comma (sign A B : List Char)
    (hs : sign = [] ∨ sign = ['-']) (hA : ∀ a ∈ A, a.isDigit = true) :
    leadRun (sign ++ (A ++ ',' :: B)) = A.length := by
  have hcomma : ¬ (',' : Char).isDigit = true := by decide
  rcases hs with rfl | rfl
  · rw [List.nil_append]
    match A, hA with
    | [], _ =>
      show leadRun (',' :: B) = 0
      unfold leadRun
      simp only [splitSign]
      rw [if_neg (by decide : ¬ (',' : Char) = '-')]
      simp [List.takeWhile_cons, comma_not_digit]
    | a :: A, hA =>
      have ha : a.isDigit = true := hA a (List.mem_cons_self a A)
      show leadRun (a :: (A ++ ',' :: B)) = (a :: A).length
      unfold leadRun
      simp only [splitSign]
      rw [if_neg (digit_ne_dash ha)]
      rw [show (a :: (A ++ ',' :: B)) = ((a :: A) ++ ',' :: B) from rfl]
      rw [takeWhile_append_stop Char.isDigit ',' hcomma (a :: A) B hA]
  · show leadRun ('-' :: (A ++ ',' :: B)) = A.length
    unfold leadRun
    simp only [splitSign, if_true]
    rw [takeWhile_append_stop Char.isDigit ',' hcomma A B hA]

theorem commaStepL_of_small {cs : List Char} (h : leadRun cs ≤ 3) :
    commaStepL cs = cs := by
  simp only [commaStepL]
  rw [if_neg]
  unfold leadRun at h
  omega

theorem four_le_of_commaStepL_ne {cs : List Char} (h : ¬ commaStepL cs = cs) :
    4 ≤ leadRun cs := by
  by_contra hlt
  exact h (commaStepL_of_small (by omega))

theorem leadRun_commaStepL {cs : List Char} (h : 4 ≤ leadRun cs) :
    leadRun (commaStepL cs) = leadRun cs - 3 := by
  have hds : ∀ a ∈ (splitSign cs).2.takeWhile Char.isDigit, a.isDigit = true :=
    fun a ha => List.mem_takeWhile_imp ha
  have hstep : commaStepL cs =
      (splitSign cs).1 ++
        (((splitSign cs).2.takeWhile Char.isDigit).take
            (((splitSign cs).2.takeWhile Char.isDigit).length - 3) ++
          ',' :: (((splitSign cs).2.takeWhile Char.isDigit).drop
              (((splitSign cs).2.takeWhile Char.isDigit).length - 3) ++
            (splitSign cs).2.dropWhile Char.isDigit)) := by
    simp only [commaStepL]
    rw [if_pos (show 4 ≤ ((splitSign cs).2.takeWhile Char.isDigit).length from h)]
  rw [hstep]
  rw [leadRun_sign_digits_comma _ _ _ (splitSign_fst cs)
    (fun a ha => hds a ((List.take_sublist _ _).subset ha))]
  rw [List.length_take]
  unfold leadRun at h ⊢
  omega

theorem fixCommaFuel_fixed :
    ∀ (n : ℕ) (cs : List Char), leadRun cs ≤ 3 * n + 3 →
      commaStepL (fixCommaFuel n cs) = fixCommaFuel n cs
  | 0, cs, h => by
    unfold fixCommaFuel
    exact commaStepL_of_small (by omega)
  | n + 1, cs, h => by
    unfold fixCommaFuel
    by_cases heq : commaStepL cs = cs
    · rw [if_pos heq]
      exact heq
    · rw [if_neg heq]
      have h4 : 4 ≤ leadRun cs := four_le_of_commaStepL_ne heq
      have hlt : leadRun (commaStepL cs) ≤ 3 * n + 3 := by
        rw [leadRun_commaStepL h4]
        omega
      exact fixCommaFuel_fixed n (commaStepL cs) hlt

theorem commaStepL_pprintChars (cs : List Char) :
    commaStepL (pprintChars cs) = pprintChars cs :=
  fixCommaFuel_fixed (leadRun cs) cs (by omega)

theorem fixCommaFuel_of_fixed {cs : List Char} (n : ℕ) (h : commaStepL cs = cs) :
    fixCommaFuel n cs = cs := by
  match n with
  | 0 => rfl
  | n + 1 =>
    unfold fixCommaFuel
    rw [if_pos h]

theorem pprintChars_of_fixed {cs : List Char} (h : commaStepL cs = cs) :
    pprintChars cs = cs :=
  fixCommaFuel_of_fixed (leadRun cs) h

theorem fixCommaFuel_iterate :
    ∀ (n : ℕ) (cs : List Char), ∃ k : ℕ, fixCommaFuel n cs = commaStepL^[k] cs
  | 0, cs => ⟨0, rfl⟩
  | n + 1, cs => by
    unfold fixCommaFuel
    by_cases heq : commaStepL cs = cs
    · rw [if_pos heq]
      exact ⟨0, rfl⟩
    · rw [if_neg heq]
      obtain ⟨k, hk⟩ := fixCommaFuel_iterate n (commaStepL cs)
      exact ⟨k + 1, by rw [Function.iterate_succ_apply, hk]⟩

theorem pprintChars_iterate (cs : List Char) :
    ∃ k : ℕ, pprintChars cs = commaStepL^[k] cs :=
  fixCommaFuel_iterate (leadRun cs) cs

theorem pprintStr_idem (s : String) : pprintStr (pprintStr s) = pprintStr s := by
  unfold pprintStr
  rw [show (String.mk (pprintChars s.data)).data = pprintChars s.data from rfl]
  rw [pprintChars_of_fixed (commaStepL_pprintChars s.data)]

/-! ### Lemmas about `_render_row` -/

theorem average_of_ne_nil {l : List ℚ} (h : l ≠ []) :
    average l = some (l.sum / (l.length : ℚ)) := by
  unfold average
  rw [if_neg (fun h0 => h (List.length_eq_zero.mp h0))]

theorem sortedBills_ne_nil {bills : AccountBills} (h : nzPrevValues bills ≠ []) :
    sortedBills bills ≠ [] := by
  intro h0
  exact h (by simp [nzPrevValues, prevValues, h0])

theorem renderRow_ok {label : String} {bills : AccountBills}
    (hW : nzPrevValues bills ≠ []) :
    renderRow label bills =
      .ok [label, pprintF (specPrevAvg bills), pprintF (specThisMonth bills),
        (if specPrevAvg bills * 0.95 > specThisMonth bills then
          ("↓ " ++ fmt2d (truncInt ((1 - specThisMonth bills / specPrevAvg bills) * 100)) ++ "%", "")
        else if specPrevAvg bills * 1.05 ≤ specThisMonth bills then
          ("", "↟↟ " ++ fmt2d (truncInt ((specThisMonth bills / specPrevAvg bills - 1) * 100)) ++ "%")
        else ("", "")).1,
        (if specPrevAvg bills * 0.95 > specThisMonth bills then
          ("↓ " ++ fmt2d (truncInt ((1 - specThisMonth bills / specPrevAvg bills) * 100)) ++ "%", "")
        else if specPrevAvg bills * 1.05 ≤ specThisMonth bills then
          ("", "↟↟ " ++ fmt2d (truncInt ((specThisMonth bills / specPrevAvg bills - 1) * 100)) ++ "%")
        else ("", "")).2] := by
  unfold renderRow
  rw [getLast?_eq_getLastD ((0, 0), 0) _ (sortedBills_ne_nil hW)]
  rw [average_of_ne_nil hW]
  simp only [Option.elim]
  rfl

theorem mem_nzPrevValues_pos {bills : AccountBills}
    (hnn : ∀ p ∈ bills, 0 ≤ p.2) {x : ℚ} (hx : x ∈ nzPrevValues bills) : 0 < x := by
  obtain ⟨hmem, hne⟩ := List.mem_filter.mp hx
  have hx0 : x ≠ 0 := by simpa using hne
  obtain ⟨pr, hpr, hpr2⟩ := List.mem_map.mp hmem
  have hin : pr ∈ bills := mem_sortBy.mp (List.dropLast_subset _ hpr)
  have := hnn pr hin
  rw [hpr2] at this
  exact lt_of_le_of_ne this (Ne.symm hx0)

theorem specPrevAvg_pos {bills : AccountBills}
    (hnn : ∀ p ∈ bills, 0 ≤ p.2) (hW : nzPrevValues bills ≠ []) :
    0 < specPrevAvg bills := by
  unfold specPrevAvg
  apply div_pos
  · exact List.sum_pos _ (fun x hx => mem_nzPrevValues_pos hnn hx) hW
  · exact_mod_cast List.length_pos.mpr hW

theorem truncInt_of_nonneg {q : ℚ} (h : 0 ≤ q) : truncInt q = ⌊q⌋ := by
  unfold truncInt
  rw [if_neg (not_lt.mpr h)]

/-- Claim C1: for an AccountBills mapping with at least two entries and
non-negative amounts (the data model's invariant), whose previous-month
non-zero mean is well defined, `_render_row` classifies in priority order:
a decrease when `previous_average * 0.95 > this_month_total`, with the down
cell `"↓ {m:2d}%"` for `m = floor((1 - this/prev) * 100)` and the up cell
empty; otherwise an increase when `previous_average * 1.05 <= this_month_total`,
with the up cell `"↟↟ {m:2d}%"` for `m = floor((this/prev - 1) * 100)` and the
down cell empty; otherwise both indicator cells empty. -/
theorem renderRow_trend_classification :
    ∀ (label : String) (bills : AccountBills),
      2 ≤ bills.length →
      (∀ p ∈ bills, 0 ≤ p.2) →
      nzPrevValues bills ≠ [] →
      (specPrevAvg bills * 0.95 > specThisMonth bills →
        renderRow label bills =
          .ok [label, pprintF (specPrevAvg bills), pprintF (specThisMonth bills),
            "↓ " ++ fmt2d ⌊(1 - specThisMonth bills / specPrevAvg bills) * 100⌋ ++ "%", ""]) ∧
      (¬ specPrevAvg bills * 0.95 > specThisMonth bills →
        specPrevAvg bills * 1.05 ≤ specThisMonth bills →
        renderRow label bills =
          .ok [label, pprintF (specPrevAvg bills), pprintF (specThisMonth bills),
            "", "↟↟ " ++ fmt2d ⌊(specThisMonth bills / specPrevAvg bills - 1) * 100⌋ ++ "%"]) ∧
      (¬ specPrevAvg bills * 0.95 > specThisMonth bills →
        ¬ specPrevAvg bills * 1.05 ≤ specThisMonth bills →
        renderRow label bills =
          .ok [label, pprintF (specPrevAvg bills), pprintF (specThisMonth bills), "", ""]) := by
  intro label bills _ hnn hW
  have hp : 0 < specPrevAvg bills := specPrevAvg_pos hnn hW
  refine ⟨fun hdec => ?_, fun hnd hinc => ?_, fun hnd hni => ?_⟩
  · rw [renderRow_ok hW, if_pos hdec]
    have hq : 0 ≤ (1 - specThisMonth bills / specPrevAvg bills) * 100 := by
      have hdiv : specThisMonth bills / specPrevAvg bills < 0.95 :=
        (div_lt_iff₀ hp).mpr (by rw [mul_comm]; exact hdec)
      nlinarith
    rw [truncInt_of_nonneg hq]
  · rw [renderRow_ok hW, if_neg hnd, if_pos hinc]
    have hq : 0 ≤ (specThisMonth bills / specPrevAvg bills - 1) * 100 := by
      have hdiv : (1.05 : ℚ) ≤ specThisMonth bills / specPrevAvg bills :=
        (le_div_iff₀ hp).mpr (by rw [mul_comm]; exact hinc)
      nlinarith
    rw [truncInt_of_nonneg hq]
  · rw [renderRow_ok hW, if_neg hnd, if_neg hni]

theorem renderRow_trend_classification_witness :
    renderRow "acct" [((2024, 1), 0), ((2024, 2), 100), ((2024, 3), 100), ((2024, 4), 50)] =
      .ok ["acct", "100.00", "50.00", "↓ 50%", ""] := by
  have h := (renderRow_trend_classification "acct"
      [((2024, 1), 0), ((2024, 2), 100), ((2024, 3), 100), ((2024, 4), 50)]
      (by decide) (by decide) (by decide)).1 (by decide)
  rw [h]
  have hfl : (⌊(1 - specThisMonth [((2024, 1), 0), ((2024, 2), 100), ((2024, 3), 100), ((2024, 4), 50)] /
      specPrevAvg [((2024, 1), 0), ((2024, 2), 100), ((2024, 3), 100), ((2024, 4), 50)]) * 100⌋ : ℤ) = 50 := by
    rw [Rat.floor_def]
    decide
  rw [hfl]
  decide

/-- Claim C2 counterexample: with previous average 100 and this month exactly
105.00, the code classifies an increase (the `<=` comparator is inclusive),
not stable as the claim asserts. -/
theorem trend_boundary_105_counterexample :
    renderRow "a" [((2024, 1), 100), ((2024, 2), 100), ((2024, 3), 100), ((2024, 4), 105)] ≠
        .ok ["a", "100.00", "105.00", "", ""] ∧
      renderRow "a" [((2024, 1), 100), ((2024, 2), 100), ((2024, 3), 100), ((2024, 4), 105)] =
        .ok ["a", "100.00", "105.00", "", "↟↟  5%"] :=
  ⟨by decide, by decide⟩

/-- Claim C2 (amended): for previous_average = 100, this_month = 94.99 is a
decrease of magnitude 5; 95.00 is stable; 105.00 is an increase of magnitude
5 (the `<=` comparator makes the +5% boundary itself an increase); 105.01 is
an increase of magnitude 5. -/
theorem trend_boundaries_amended :
    renderRow "a" [((2024, 1), 100), ((2024, 2), 100), ((2024, 3), 100), ((2024, 4), 94.99)] =
        .ok ["a", "100.00", "94.99", "↓  5%", ""] ∧
      renderRow "a" [((2024, 1), 100), ((2024, 2), 100), ((2024, 3), 100), ((2024, 4), 95)] =
        .ok ["a", "100.00", "95.00", "", ""] ∧
      renderRow "a" [((2024, 1), 100), ((2024, 2), 100), ((2024, 3), 100), ((2024, 4), 105)] =
        .ok ["a", "100.00", "105.00", "", "↟↟  5%"] ∧
      renderRow "a" [((2024, 1), 100), ((2024, 2), 100), ((2024, 3), 100), ((2024, 4), 105.01)] =
        .ok ["a", "100.00", "105.01", "", "↟↟  5%"] :=
  ⟨by decide, by decide, by decide, by decide⟩

/-- Claim C3: the previous-month average used by `_render_row` is the
arithmetic mean of the previous-month totals with the exactly-zero entries
excluded (`average` applied to `nzPrevValues`, which it renders into the
second cell); in particular the mapping
`{(2024,1): 0, (2024,2): 100, (2024,3): 100, (2024,4): 50}` averages to 100
and is classified a 50% decrease. -/
theorem prev_average_zero_exclusion :
    (∀ (label : String) (bills : AccountBills), nzPrevValues bills ≠ [] →
      average (nzPrevValues bills) = some (specPrevAvg bills) ∧
      ∃ g l_ : String, renderRow label bills =
        .ok [label, pprintF (specPrevAvg bills), pprintF (specThisMonth bills), g, l_]) ∧
    renderRow "acct" [((2024, 1), 0), ((2024, 2), 100), ((2024, 3), 100), ((2024, 4), 50)] =
      .ok ["acct", "100.00", "50.00", "↓ 50%", ""] := by
  refine ⟨fun label bills hW => ⟨average_of_ne_nil hW, ?_⟩, by decide⟩
  exact ⟨_, _, renderRow_ok hW⟩

theorem prev_average_zero_exclusion_witness :
    average (nzPrevValues [((2024, 1), 0), ((2024, 2), 100), ((2024, 3), 100), ((2024, 4), 50)]) =
      some (specPrevAvg [((2024, 1), 0), ((2024, 2), 100), ((2024, 3), 100), ((2024, 4), 50)]) :=
  (prev_average_zero_exclusion.1 "acct"
    [((2024, 1), 0), ((2024, 2), 100), ((2024, 3), 100), ((2024, 4), 50)] (by decide)).1

/-- Claim C5: for a non-empty AccountBills mapping, `_render_row` raises
ZeroDivisionError exactly when every previous-month amount is zero (which is
vacuously so for a one-entry mapping); whenever some previous-month amount is
non-zero the row renders without error. -/
theorem renderRow_division_by_zero :
    (∀ (label : String) (bills : AccountBills), bills ≠ [] →
      (renderRow label bills = .error .zeroDivisionError ↔ ∀ v ∈ prevValues bills, v = 0)) ∧
    (∀ (label : String) (bills : AccountBills), (∃ v ∈ prevValues bills, v ≠ 0) →
      ∃ cells, renderRow label bills = .ok cells) ∧
    (∀ (label : String) (k : MonthKey) (v : ℚ),
      renderRow label [(k, v)] = .error .zeroDivisionError) := by
  have hiff : ∀ bills : AccountBills,
      nzPrevValues bills = [] ↔ ∀ v ∈ prevValues bills, v = 0 := by
    intro bills
    unfold nzPrevValues
    rw [List.filter_eq_nil_iff]
    simp
  have hok : ∀ (label : String) (bills : AccountBills), nzPrevValues bills ≠ [] →
      ∃ cells, renderRow label bills = .ok cells :=
    fun label bills hW => ⟨_, renderRow_ok hW⟩
  refine ⟨fun label bills hne => ?_, fun label bills hv => ?_, fun label k v => ?_⟩
  · constructor
    · intro herr
      rw [← hiff]
      by_contra hW
      obtain ⟨cells, hcells⟩ := hok label bills hW
      rw [hcells] at herr
      exact Except.noConfusion herr
    · intro hall
      have hsb : sortedBills bills ≠ [] := by
        intro h0
        apply hne
        have := sortBy_length pairLt bills
        rw [show sortBy pairLt bills = sortedBills bills from rfl, h0] at this
        exact List.length_eq_zero.mp this.symm
      unfold renderRow
      rw [getLast?_eq_getLastD ((0, 0), 0) _ hsb]
      have hz : nzPrevValues bills = [] := (hiff bills).mpr hall
      rw [hz]
      rfl
  · exact hok label bills (fun h0 => by
      obtain ⟨v, hv1, hv2⟩ := hv
      have : v ∈ nzPrevValues bills := List.mem_filter.mpr ⟨hv1, by simpa using hv2⟩
      rw [h0] at this
      exact absurd this (List.not_mem_nil v))
  · rfl

theorem renderRow_division_by_zero_witness :
    renderRow "a" [((2024, 1), 5), ((2024, 2), 7)] = .error .zeroDivisionError ↔
      ∀ v ∈ prevValues [((2024, 1), 5), ((2024, 2), 7)], v = 0 :=
  renderRow_division_by_zero.1 "a" [((2024, 1), 5), ((2024, 2), 7)] (by decide)

/-- Claim C6 counterexample: `pprint_currency(0)` with the Python integer 0
does not return "0.00" — an int is neither pre-formatted (only floats are)
nor a valid `re.sub` argument, so the call raises TypeError. -/
theorem pprint_currency_int_zero_counterexample :
    pprint_currency (.int 0) ≠ .ok "0.00" := by
  decide

/-- Claim C6 (amended): the formatter renders with two decimals, comma
separators and a leading minus sign: 1234567.5 → "1,234,567.50",
-42.1 → "-42.10", and the float 0.0 → "0.00"; the integer 0 instead raises
TypeError. -/
theorem pprint_currency_examples :
    pprint_currency (.float 1234567.5) = .ok "1,234,567.50" ∧
      pprint_currency (.float (-42.1)) = .ok "-42.10" ∧
      pprint_currency (.float 0) = .ok "0.00" ∧
      pprint_currency (.int 0) = .error .typeError :=
  ⟨by decide, by decide, by decide, rfl⟩

/-- Claim C7: currency formatting is idempotent — whatever string
`pprint_currency` returns, feeding it back in returns it unchanged. -/
theorem pprint_currency_idempotent :
    ∀ (v : CurrencyInput) (s : String),
      pprint_currency v = .ok s → pprint_currency (.str s) = .ok s := by
  intro v s h
  match v with
  | .float q =>
    have hs : pprintF q = s := by simpa [pprint_currency] using h
    rw [← hs]
    show Except.ok (pprintStr (pprintStr (formatFixed2 q))) = _
    rw [pprintStr_idem]
    rfl
  | .str t =>
    have hs : pprintStr t = s := by simpa [pprint_currency] using h
    rw [← hs]
    show Except.ok (pprintStr (pprintStr t)) = _
    rw [pprintStr_idem]
  | .int n => simp [pprint_currency] at h

theorem pprint_currency_idempotent_witness :
    pprint_currency (.str "1,234,567.50") = .ok "1,234,567.50" :=
  pprint_currency_idempotent (.float 1234567.5) "1,234,567.50" (by decide)

/-- Claim C9 (code bug): called in January 2024, the window-start computation
of `get_last_four_months_of_bills` yields (2023, 11) — only two months before
the exclusive end of the window at the current month — although the claim
(and the function's own docstring, "the last four months") requires the first
day of the month four calendar months back, (2023, 9).  The wrap branch
computes month `12 - m` instead of `m + 8`, so January, March and April all
get a wrong window (March shown as well: six months instead of four). -/
theorem four_months_window_bug :
    fourMonthsAgo 2024 1 = (2023, 11) ∧
      specFourMonthsBefore 2024 1 = (2023, 9) ∧
      fourMonthsAgo 2024 1 ≠ specFourMonthsBefore 2024 1 ∧
      monthIndex (2024, 1) - monthIndex (fourMonthsAgo 2024 1) = 2 ∧
      monthIndex (2024, 1) - monthIndex (specFourMonthsBefore 2024 1) = 4 ∧
      fourMonthsAgo 2024 3 = (2023, 9) ∧
      monthIndex (2024, 3) - monthIndex (fourMonthsAgo 2024 3) = 6 := by
  refine ⟨rfl, rfl, by decide, by decide, by decide, rfl, by decide⟩

/-- Claim C10: `pprint_currency` terminates on every float and on every
string input: the returned string is reached from the two-decimal rendering
(resp. the input string) after finitely many applications of the
comma-insertion step, and is a fixed point of that step. -/
theorem pprint_currency_terminates :
    (∀ q : ℚ, pprint_currency (.float q) = .ok (pprintStr (formatFixed2 q)) ∧
      commaStepL (pprintStr (formatFixed2 q)).data = (pprintStr (formatFixed2 q)).data ∧
      ∃ k : ℕ, commaStepL^[k] (formatFixed2 q).data = (pprintStr (formatFixed2 q)).data) ∧
    (∀ s : String, pprint_currency (.str s) = .ok (pprintStr s) ∧
      commaStepL (pprintStr s).data = (pprintStr s).data ∧
      ∃ k : ℕ, commaStepL^[k] s.data = (pprintStr s).data) := by
  constructor
  · intro q
    refine ⟨rfl, commaStepL_pprintChars (formatFixed2 q).data, ?_⟩
    obtain ⟨k, hk⟩ := pprintChars_iterate (formatFixed2 q).data
    exact ⟨k, hk.symm⟩
  · intro s
    refine ⟨rfl, commaStepL_pprintChars s.data, ?_⟩
    obtain ⟨k, hk⟩ := pprintChars_iterate s.data
    exact ⟨k, hk.symm⟩

/-! ### The total-row computation -/

theorem specContribList_cons (bills : AccountBills) (p : MonthKey × ℚ)
    (rest : List (MonthKey × ℚ)) (m : MonthKey) :
    specContribList bills (p :: rest) m =
      (if p.1 = m then (if p.2 = 0 then specNZAvg bills else p.2) else 0) +
        specContribList bills rest m := rfl

theorem specTotalAt_cons (a : String × AccountBills) (rest : BillingData) (m : MonthKey) :
    specTotalAt (a :: rest) m = specContribList a.2 a.2 m + specTotalAt rest m := rfl

theorem lookupSum_bump :
    ∀ (l : List (MonthKey × ℚ)) (k : MonthKey) (v : ℚ) (m : MonthKey),
      lookupSum (bump l k v) m = (if k = m then v else 0) + lookupSum l m
  | [], k, v, m => by simp [bump, lookupSum]
  | p :: rest, k, v, m => by
    unfold bump
    by_cases hpk : p.1 = k
    · rw [if_pos hpk]
      unfold lookupSum
      rw [hpk]
      by_cases hkm : k = m
      · rw [if_pos hkm, if_pos hkm, if_pos hkm]
        ring
      · rw [if_neg hkm, if_neg hkm, if_neg hkm]
        ring
    · rw [if_neg hpk]
      unfold lookupSum
      rw [lookupSum_bump rest k v m]
      ring

theorem keys_bump_subset :
    ∀ (l : List (MonthKey × ℚ)) (k : MonthKey) (v : ℚ),
      ((bump l k v).map Prod.fst) ⊆ k :: l.map Prod.fst
  | [], k, v => by simp [bump]
  | p :: rest, k, v => by
    unfold bump
    by_cases hpk : p.1 = k
    · rw [if_pos hpk]
      intro x hx
      rcases List.mem_cons.mp hx with rfl | hx
      · exact List.mem_cons_self _ _
      · exact List.mem_cons_of_mem _ (List.mem_cons_of_mem _ hx)
    · rw [if_neg hpk]
      intro x hx
      rcases List.mem_cons.mp hx with rfl | hx
      · exact List.mem_cons_of_mem _ (List.mem_cons_self _ _)
      · rcases List.mem_cons.mp (keys_bump_subset rest k v hx) with rfl | hx
        · exact List.mem_cons_self _ _
        · exact List.mem_cons_of_mem _ (List.mem_cons_of_mem _ hx)

theorem nodup_keys_bump :
    ∀ (l : List (MonthKey × ℚ)) (k : MonthKey) (v : ℚ),
      (l.map Prod.fst).Nodup → ((bump l k v).map Prod.fst).Nodup
  | [], k, v, _ => by simp [bump]
  | p :: rest, k, v, h => by
    rw [List.map_cons, List.nodup_cons] at h
    obtain ⟨hp, hrest⟩ := h
    unfold bump
    by_cases hpk : p.1 = k
    · rw [if_pos hpk]
      rw [List.map_cons, List.nodup_cons]
      exact ⟨by rw [← hpk]; exact hp, hrest⟩
    · rw [if_neg hpk]
      rw [List.map_cons, List.nodup_cons]
      refine ⟨fun hmem => ?_, nodup_keys_bump rest k v hrest⟩
      rcases List.mem_cons.mp (keys_bump_subset rest k v hmem) with heq | hmem
      · exact hpk heq
      · exact hp hmem

theorem addMonths_ok (bills : AccountBills) (l : List (MonthKey × ℚ)) :
    ∀ acc : List (MonthKey × ℚ),
      (∀ p ∈ l, p.2 = 0 → posAvgOf bills = some (specNZAvg bills)) →
      ∃ acc2, addMonths bills acc l = .ok acc2 ∧
        (∀ m, lookupSum acc2 m = lookupSum acc m + specContribList bills l m) ∧
        ((acc.map Prod.fst).Nodup → (acc2.map Prod.fst).Nodup) := by
  induction l with
  | nil =>
    intro acc _
    exact ⟨acc, rfl, fun m => by simp [specContribList], id⟩
  | cons p rest ih =>
    intro acc h
    by_cases hz : p.2 = 0
    · have hav := h p (List.mem_cons_self p rest) hz
      obtain ⟨acc2, h1, h2, h3⟩ :=
        ih (bump acc p.1 (specNZAvg bills)) (fun q hq => h q (List.mem_cons_of_mem p hq))
      refine ⟨acc2, ?_, fun m => ?_, fun hnd => h3 (nodup_keys_bump acc p.1 _ hnd)⟩
      · unfold addMonths
        rw [if_pos hz, hav]
        exact h1
      · rw [h2 m, lookupSum_bump, specContribList_cons, if_pos hz]
        by_cases hm : p.1 = m
        · rw [if_pos hm]
          ring
        · rw [if_neg hm]
          ring
    · obtain ⟨acc2, h1, h2, h3⟩ :=
        ih (bump acc p.1 p.2) (fun q hq => h q (List.mem_cons_of_mem p hq))
      refine ⟨acc2, ?_, fun m => ?_, fun hnd => h3 (nodup_keys_bump acc p.1 _ hnd)⟩
      · unfold addMonths
        rw [if_neg hz]
        exact h1
      · rw [h2 m, lookupSum_bump, specContribList_cons, if_neg hz]
        by_cases hm : p.1 = m
        · rw [if_pos hm]
          ring
        · rw [if_neg hm]
          ring

theorem posAvg_eq_specNZAvg {bills : AccountBills}
    (hnn : ∀ p ∈ bills, 0 ≤ p.2) (hpos : ∃ q ∈ bills, 0 < q.2) :
    posAvgOf bills = some (specNZAvg bills) := by
  have hcongr : (bills.map Prod.snd).filter (fun v => decide (0 < v)) =
      (bills.map Prod.snd).filter (fun v => decide (v ≠ 0)) := by
    apply List.filter_congr
    intro x hx
    obtain ⟨pr, hpr, hpr2⟩ := List.mem_map.mp hx
    have h0 : 0 ≤ x := hpr2 ▸ hnn pr hpr
    by_cases hx0 : x = 0
    · simp [hx0]
    · simp [hx0, lt_of_le_of_ne h0 (Ne.symm hx0)]
  have hne : (bills.map Prod.snd).filter (fun v => decide (0 < v)) ≠ [] := by
    obtain ⟨q, hq, hq2⟩ := hpos
    intro h0
    have : q.2 ∈ (bills.map Prod.snd).filter (fun v => decide (0 < v)) :=
      List.mem_filter.mpr ⟨List.mem_map.mpr ⟨q, hq, rfl⟩, by simpa using hq2⟩
    rw [h0] at this
    exact absurd this (List.not_mem_nil _)
  unfold posAvgOf
  rw [average_of_ne_nil hne, hcongr]
  rfl

theorem totalsOf_ok (data : BillingData) :
    ∀ acc : List (MonthKey × ℚ),
      (∀ a ∈ data, ∀ p ∈ a.2, 0 ≤ p.2) →
      (∀ a ∈ data, (∃ p ∈ a.2, p.2 = 0) → ∃ q ∈ a.2, 0 < q.2) →
      ∃ l, totalsOf acc data = .ok l ∧
        (∀ m, lookupSum l m = lookupSum acc m + specTotalAt data m) ∧
        ((acc.map Prod.fst).Nodup → (l.map Prod.fst).Nodup) := by
  induction data with
  | nil =>
    intro acc _ _
    exact ⟨acc, rfl, fun m => by simp [specTotalAt], id⟩
  | cons a rest ih =>
    intro acc hnn hzp
    have hacct : ∀ p ∈ a.2, p.2 = 0 → posAvgOf a.2 = some (specNZAvg a.2) := by
      intro p hp hp0
      exact posAvg_eq_specNZAvg (hnn a (List.mem_cons_self a rest))
        (hzp a (List.mem_cons_self a rest) ⟨p, hp, hp0⟩)
    obtain ⟨acc2, h1, h2, h3⟩ := addMonths_ok a.2 a.2 acc hacct
    obtain ⟨l, g1, g2, g3⟩ := ih acc2
      (fun b hb => hnn b (List.mem_cons_of_mem a hb))
      (fun b hb => hzp b (List.mem_cons_of_mem a hb))
    refine ⟨l, ?_, fun m => ?_, fun hnd => g3 (h3 hnd)⟩
    · unfold totalsOf
      rw [h1]
      exact g1
    · rw [g2 m, h2 m, specTotalAt_cons]
      ring

/-- Claim C4: the synthetic Total AccountBills maps each month to the sum
over accounts of that account's amount for the month, an exactly-zero amount
being replaced by the average of that account's non-zero monthly amounts
(under the data model's non-negativity the code's positive-amount filter
coincides with "non-zero"); the keys of the built dict are unique.  In
particular, with A = `{Jan:10, Feb:0, Mar:10}` and B = `{Jan:5, Feb:5, Mar:5}`
every month totals 15 — Feb gets A's non-zero average 10 plus 5, not 0 + 5. -/
theorem total_row_backfill :
    (∀ data : BillingData,
      (∀ a ∈ data, ∀ p ∈ a.2, 0 ≤ p.2) →
      (∀ a ∈ data, (∃ p ∈ a.2, p.2 = 0) → ∃ q ∈ a.2, 0 < q.2) →
      ∃ l, totalBillsList data = .ok l ∧
        (l.map Prod.fst).Nodup ∧
        ∀ m, lookupSum l m = specTotalAt data m) ∧
    totalBillsList exDataAB = .ok [((2024, 1), 15), ((2024, 2), 15), ((2024, 3), 15)] ∧
    lookupSum [((2024, 1), 15), ((2024, 2), 15), ((2024, 3), 15)] (2024, 2) = 15 ∧
    specNZAvg exBillsA = 10 := by
  refine ⟨fun data hnn hzp => ?_, by decide, by decide, by decide⟩
  obtain ⟨l, h1, h2, h3⟩ := totalsOf_ok data [] hnn hzp
  refine ⟨l, h1, h3 (by simp), fun m => ?_⟩
  rw [h2 m]
  simp [lookupSum]

theorem total_row_backfill_witness :
    ∃ l, totalBillsList exDataAB = .ok l ∧
      (l.map Prod.fst).Nodup ∧
      ∀ m, lookupSum l m = specTotalAt exDataAB m :=
  total_row_backfill.1 exDataAB (by decide) (by decide)

/-! ### Row ordering in the assembled table -/

/-- Claim C8: in the assembled table the account rows come first, ordered
descending by the numeric value recovered from the comma-formatted
this-month cell (the `sortKey` that strips the commas and parses the number
back), and the separator row and the TOTAL row follow all account rows; for
every input order of three accounts whose this-month cells render as
"1,200.00", "50.00", "999.99", the table is exactly `sortedTable`
(1,200.00, then 999.99, then 50.00, then separator, then TOTAL). -/
theorem billing_table_sort_order :
    (∀ (data : BillingData) (rows : List (List String)),
      billingRows data = .ok rows →
      ∃ (acct : List (List String)) (total : List String),
        rows = acct ++ [sepRow, total] ∧
        acct.Pairwise (fun a b => sortKey b ≤ sortKey a)) ∧
    (∀ data ∈ sortPerms, billingRows data = .ok sortedTable) := by
  constructor
  · intro data rows h
    unfold billingRows at h
    rcases hm : data.mapM (fun a => renderRow a.1 a.2) with e | rows0
    · rw [hm] at h
      exact absurd h (by simp [Except.bind])
    · rw [hm] at h
      rw [show (Except.ok rows0 : Except PyError (List (List String))).bind
          (fun rows =>
            (totalBillsList data).bind fun totals =>
              (renderRow "TOTAL" totals).map fun totalRow =>
                sortBy rowLt rows ++ [sepRow, totalRow]) =
          ((totalBillsList data).bind fun totals =>
            (renderRow "TOTAL" totals).map fun totalRow =>
              sortBy rowLt rows0 ++ [sepRow, totalRow]) from rfl] at h
      rcases ht : totalBillsList data with e | totals
      · rw [ht] at h
        exact absurd h (by simp [Except.bind])
      · rw [ht] at h
        rw [show ((Except.ok totals : Except PyError (List (MonthKey × ℚ))).bind fun totals =>
            Except.map (fun totalRow => sortBy rowLt rows0 ++ [sepRow, totalRow])
              (renderRow "TOTAL" totals)) =
            Except.map (fun totalRow => sortBy rowLt rows0 ++ [sepRow, totalRow])
              (renderRow "TOTAL" totals) from rfl] at h
        rcases hr : renderRow "TOTAL" totals with e | trow
        · rw [hr] at h
          exact absurd h (by simp [Except.bind, Except.map])
        · rw [hr] at h
          have hrows : sortBy rowLt rows0 ++ [sepRow, trow] = rows := by
            simpa [Except.bind, Except.map] using h
          refine ⟨sortBy rowLt rows0, trow, hrows.symm, ?_⟩
          exact pairwise_sortBy sortKey rows0
  · intro data hd
    have hmem : data = [("A", rowBillsA), ("B", rowBillsB), ("C", rowBillsC)] ∨
        data = [("A", rowBillsA), ("C", rowBillsC), ("B", rowBillsB)] ∨
        data = [("B", rowBillsB), ("A", rowBillsA), ("C", rowBillsC)] ∨
        data = [("B", rowBillsB), ("C", rowBillsC), ("A", rowBillsA)] ∨
        data = [("C", rowBillsC), ("A", rowBillsA), ("B", rowBillsB)] ∨
        data = [("C", rowBillsC), ("B", rowBillsB), ("A", rowBillsA)] := by
      simpa [sortPerms] using hd
    rcases hmem with rfl | rfl | rfl | rfl | rfl | rfl
    · decide
    · decide
    · decide
    · decide
    · decide
    · decide

theorem billing_table_sort_order_witness :
    billingRows [("C", rowBillsC), ("B", rowBillsB), ("A", rowBillsA)] = .ok sortedTable :=
  billing_table_sort_order.2 [("C", rowBillsC), ("B", rowBillsB), ("A", rowBillsA)]
    (by simp [sortPerms])

end CostsReport
